import Mathlib

/-!
Shallow embedding of the `bigfix` statistics tool (src/src/bigfixstats.cpp,
src/include/bigfix/bigfixstats.h).

Modelling conventions:
* C++ `std::string` data is a `List Char`; `std::string::find` positions are
  `size_t` values modelled as `Nat` with `npos = 2^64 - 1` and position
  arithmetic reduced modulo `2^64` (the wrap of `npos + 4` to `3` is observable
  in the scanning loop and is modelled faithfully).
* Machine integers are `Nat`/`Int` with explicit reductions: `% 2^32` for
  `uint32_t`, `% 2^16` for `uint16_t` conversions, and conversion of an
  out-of-range value where C++ leaves the behaviour undefined is `none`.
* `std::stoi` (which throws on text without a leading integer and on overflow)
  returns `Option Int`, `none` standing for the thrown exception.
* The `double` arithmetic of `ComputerGroup::percent` is idealised as exact
  rational arithmetic; C `round` (half away from zero) coincides with
  Mathlib's `round` (half up) on the nonnegative arguments that occur here.
* File reads: a file that could not be opened is the `none` case of an
  `Option (List (List Char))` argument (one `List Char` per line read by
  `std::getline`); the error message printed in that case is recorded as a
  `Bool` in the result.
-/

namespace BigFix

/-- Characters of a string literal. -/
def chars (s : String) : List Char := s.data

/-- Width of `size_t`. -/
def W64 : Nat := 2 ^ 64

/-- `std::string::npos`. -/
def npos : Nat := 2 ^ 64 - 1

/-- `size_t` addition (wraps modulo `2^64`). -/
def addW (a b : Nat) : Nat := (a + b) % W64

/-- Width of `uint32_t`. -/
def W32 : Nat := 2 ^ 32

/-- `uint32_t` addition (wraps modulo `2^32`). -/
def addW32 (a b : Nat) : Nat := (a + b) % W32

/-- Index of the first occurrence of `pat` in `l` (`none` if there is none). -/
def firstMatch (pat : List Char) : List Char → Option Nat
  | [] => if pat.isPrefixOf ([] : List Char) then some 0 else none
  | c :: l => if pat.isPrefixOf (c :: l) then some 0 else (firstMatch pat l).map (· + 1)

/-- C++ `line.find(pat, pos)`: the smallest index `i ≥ pos` at which `pat`
occurs in `l`, and `npos` when there is no such index (in particular when
`pos` exceeds the length of `l`). -/
def strFind (l pat : List Char) (pos : Nat) : Nat :=
  match firstMatch pat (l.drop pos) with
  | some i => pos + i
  | none => npos

/-- C++ `line.substr(pos, count)`: characters from `pos`, at most `count` of
them (every call in the source has `pos ≤ size`, where this model agrees with
the C++ semantics). -/
def substrC (l : List Char) (pos count : Nat) : List Char := (l.drop pos).take count

/-- The whitespace characters skipped by `std::stoi` (via `strtol`). -/
def isSpaceC (c : Char) : Bool :=
  c = ' ' || c = '\t' || c = '\n' || c = '\x0B' || c = '\x0C' || c = '\r'

/-- Value of a string of decimal digits. -/
def digitsVal (ds : List Char) : Nat := ds.foldl (fun a c => a * 10 + (c.toNat - 48)) 0

def INT_MAX : Int := 2 ^ 31 - 1

def INT_MIN : Int := -(2 ^ 31)

/-- C++ `std::stoi`: skip leading whitespace, optional sign, then a run of
decimal digits; `none` models the exception thrown when there is no digit
(`std::invalid_argument`) or the value does not fit in `int`
(`std::out_of_range`). -/
def stoi (s : List Char) : Option Int :=
  let s1 := s.dropWhile isSpaceC
  let neg : Bool := s1.head? = some '-'
  let s2 := if s1.head? = some '-' || s1.head? = some '+' then s1.tail else s1
  let ds := s2.takeWhile Char.isDigit
  if ds.isEmpty then none
  else
    let v : Int := (if neg then -1 else 1) * (digitsVal ds : Int)
    if v < INT_MIN || INT_MAX < v then none else some v

/-- The model class of bigfixstats.h: name, current and target counts
(`current_` and `target_` are `uint32_t` fields, default-initialised to 0). -/
structure ComputerGroup where
  name : List Char
  current : Nat := 0
  target : Nat := 0
deriving DecidableEq

/-- `ComputerGroup::percent` (bigfixstats.cpp:92-98): returns
`round(double(current_) / target_ * 100)` as `uint8_t` when `target_ != 0`,
else 0.  The conversion of the rounded `double` to `uint8_t` is undefined for
values outside `[0, 255]`, modelled as `none`. -/
def percent (g : ComputerGroup) : Option Nat :=
  if g.target ≠ 0 then
    let r : Int := round ((g.current : ℚ) / (g.target : ℚ) * 100)
    if 0 ≤ r ∧ r < 256 then some r.toNat else none
  else some 0

/-- bigfixstats.h: delimiter for the deployment targets file. -/
def kDelim : List Char := chars ","

/-- bigfixstats.h: text that indicates a line contains records. -/
def kRecord : List Char := chars "<tr>"

/-- bigfixstats.h: text that indicates the start of a record. -/
def kStart : List Char := chars "<td>"

/-- bigfixstats.h: text that indicates the end of a record. -/
def kEnd : List Char := chars "</td>"

/-- One iteration of `loadTarget`'s getline loop (bigfixstats.cpp:190-199):
the text left of the first `kDelim` is the group name, the rest goes through
`std::stoi` into a `uint16_t` (conversion modulo `2^16`) stored as the target.
`none` models the exception `std::stoi` may throw. -/
def loadTargetLine (line : List Char) : Option ComputerGroup :=
  let delim := strFind line kDelim 0
  let group := substrC line 0 delim
  match stoi (substrC line (addW delim 1) line.length) with
  | none => none
  | some v => some { name := group, current := 0, target := (v % (65536 : Int)).toNat }

/-- `loadTarget` (bigfixstats.cpp:185-205) on the lines of the target file.
The argument is `none` when the file could not be opened; the `Bool` of the
result records whether the error message was printed; the outer `none` models
an exception escaping from `std::stoi`. -/
def loadTargetF (file : Option (List (List Char))) : Option (List ComputerGroup × Bool) :=
  match file with
  | none => some ([], true)
  | some lines => (lines.mapM loadTargetLine).map (fun gs => (gs, false))

/-- The `raw` collection `std::map<std::string, uint32_t>`, as an association
list with unique keys; only its key-lookup behaviour is relevant. -/
abbrev RawMap := List (List Char × Nat)

/-- Lookup by key (the first binding; keys in a built map are unique). -/
def alookup : RawMap → List Char → Option Nat
  | [], _ => none
  | (a, b) :: m, k => if a = k then some b else alookup m k

/-- `std::map::emplace` (bigfixstats.cpp:236): inserts only when the key is
not already present, never overwriting an existing binding. -/
def emplace (m : RawMap) (k : List Char) (v : Nat) : RawMap :=
  if (alookup m k).isSome then m else m ++ [(k, v)]

/-- The raw map obtained by `emplace`-ing a list of extracted
(name, count) records in order into an empty map. -/
def buildRaw (recs : List (List Char × Nat)) : RawMap :=
  recs.foldl (fun m r => emplace m r.1 r.2) []

/-- State of the cell-scanning while-loop of `loadCurrent`: the `start`
position and the raw map accumulated so far. -/
structure ScanSt where
  start : Nat
  raw : RawMap
deriving DecidableEq

/-- One iteration of the cell-scanning loop body (bigfixstats.cpp:220-238).
`group`/`count` default to `""`/`0` and are only assigned when the matching
`kEnd` is found; the count text goes through `std::stoi` (`none` = thrown
exception) and is converted to `uint32_t` modulo `2^32`; the next `start` is
computed with wrapping `size_t` arithmetic (`npos + 4` wraps to `3`). -/
def scanBody (line : List Char) (st : ScanSt) : Option ScanSt :=
  let start0 := st.start
  let end1 := strFind line kEnd start0
  let start1 := if end1 ≠ npos then addW start0 kStart.length else start0
  let group := if end1 ≠ npos then substrC line start1 (end1 - start1) else []
  let start2 := strFind line kStart (addW start1 kStart.length)
  let end2 := strFind line kEnd start2
  if end2 ≠ npos then
    match stoi (substrC line (addW start2 kStart.length) (end2 - addW start2 kStart.length)) with
    | none => none
    | some v =>
      some ⟨strFind line kStart (addW (addW start2 kStart.length) kStart.length),
            emplace st.raw group ((v % (4294967296 : Int)).toNat)⟩
  else
    some ⟨strFind line kStart (addW start2 kStart.length), emplace st.raw group 0⟩

/-- Result of running the scanning loop: the final raw map, a thrown
`std::stoi` exception, or exhaustion of the fuel (the C++ loop has no fuel
and simply does not terminate in that case). -/
inductive ScanRes where
  | ok (raw : RawMap)
  | err
  | spin
deriving DecidableEq

/-- The `while (start != std::string::npos)` loop of `loadCurrent`
(bigfixstats.cpp:219-239), indexed by fuel. -/
def scanLoop (line : List Char) : Nat → ScanSt → ScanRes
  | 0, _ => .spin
  | fuel + 1, st =>
    if st.start = npos then .ok st.raw
    else
      match scanBody line st with
      | none => .err
      | some st' => scanLoop line fuel st'

/-- The getline loop of `loadCurrent` (bigfixstats.cpp:215-241): lines whose
first characters equal `kRecord` are scanned for cell pairs, accumulating
into the raw map. -/
def scanLines (fuel : Nat) : List (List Char) → RawMap → ScanRes
  | [], raw => .ok raw
  | line :: rest, raw =>
    if kRecord.isPrefixOf line then
      match scanLoop line fuel ⟨strFind line kStart 0, raw⟩ with
      | .ok raw' => scanLines fuel rest raw'
      | .err => .err
      | .spin => .spin
    else scanLines fuel rest raw

/-- The update of one group of the `final` collection (bigfixstats.cpp:245-255):
if the raw map has the group's name, its current count is set from it, and for
the group named "OS" the count under "MBDA" is added (`uint32_t` addition);
that lookup's iterator is dereferenced without a check, so a missing "MBDA"
key is undefined behaviour, modelled as `none`. -/
def updateGroup (raw : RawMap) (cg : ComputerGroup) : Option ComputerGroup :=
  match alookup raw cg.name with
  | some c =>
    if cg.name = chars "OS" then
      match alookup raw (chars "MBDA") with
      | some m => some { cg with current := addW32 c m }
      | none => none
    else some { cg with current := c }
  | none => some cg

/-- The update loop over the whole `final` collection (bigfixstats.cpp:244-255). -/
def mergeAll (raw : RawMap) (final : List ComputerGroup) : Option (List ComputerGroup) :=
  final.mapM (updateGroup raw)

/-- Result of `loadCurrent`. -/
inductive LoadRes where
  | ok (raw : RawMap) (final : List ComputerGroup) (printedError : Bool)
  | err
  | spin
  | ub
deriving DecidableEq

/-- `loadCurrent` (bigfixstats.cpp:210-259): when the file opens, scan every
record line and then update the `final` collection; when it does not, print
the error message and return with `raw` and `final` untouched. -/
def loadCurrentF (fuel : Nat) (file : Option (List (List Char))) (raw0 : RawMap)
    (final : List ComputerGroup) : LoadRes :=
  match file with
  | none => .ok raw0 final true
  | some lines =>
    match scanLines fuel lines raw0 with
    | .spin => .spin
    | .err => .err
    | .ok raw =>
      match mergeAll raw final with
      | none => .ub
      | some final' => .ok raw final' false

/-- The final-totals portion of `display` (bigfixstats.cpp:281-290): sum the
current and target counts of all rows in `uint32_t` accumulators and append a
row named "TOTAL" carrying the two sums. -/
def displayTotal (final : List ComputerGroup) : List ComputerGroup :=
  let current_total := final.foldl (fun a cg => addW32 a cg.current) 0
  let target_total := final.foldl (fun a cg => addW32 a cg.target) 0
  final ++ [{ name := chars "TOTAL", current := current_total, target := target_total }]

/-- A line on which the scanning loop of `loadCurrent` cycles forever. -/
def hangLine : List Char := chars "<tr><td>A</td>"

/-- First-defined of two optional values. -/
def orO (a b : Option Nat) : Option Nat :=
  match a with
  | some v => some v
  | none => b

theorem orO_none (a : Option Nat) : orO a none = a := by cases a <;> rfl

theorem orO_assoc (a b c : Option Nat) : orO (orO a b) c = orO a (orO b c) := by
  cases a <;> rfl

theorem alookup_append (m m2 : RawMap) (k : List Char) :
    alookup (m ++ m2) k = orO (alookup m k) (alookup m2 k) := by
  induction m with
  | nil => rfl
  | cons x t ih =>
    cases x with
    | mk a b => by_cases h : a = k <;> simp [alookup, h, ih, orO]

theorem alookup_emplace (m : RawMap) (k : List Char) (v : Nat) (k2 : List Char) :
    alookup (emplace m k v) k2 = orO (alookup m k2) (if k = k2 then some v else none) := by
  unfold emplace
  by_cases h : (alookup m k).isSome
  · rw [if_pos h]
    by_cases hk : k = k2
    · subst hk
      obtain ⟨w, hw⟩ := Option.isSome_iff_exists.mp h
      rw [hw]; rfl
    · rw [if_neg hk, orO_none]
  · rw [if_neg h, alookup_append]
    rfl

theorem foldl_emplace (recs : List (List Char × Nat)) (m : RawMap) (k : List Char) :
    alookup (recs.foldl (fun acc r => emplace acc r.1 r.2) m) k =
      orO (alookup m k) (alookup recs k) := by
  induction recs generalizing m with
  | nil => simp [alookup, orO_none]
  | cons x t ih =>
    cases x with
    | mk a b =>
      simp only [List.foldl_cons]
      rw [ih, alookup_emplace, orO_assoc]
      congr 1
      by_cases h : a = k <;> simp [alookup, h, orO]

theorem buildRaw_alookup (recs : List (List Char × Nat)) (k : List Char) :
    alookup (buildRaw recs) k = alookup recs k := by
  unfold buildRaw
  rw [foldl_emplace]
  rfl

theorem perm_nodup_alookup : ∀ {l l2 : RawMap}, l.Perm l2 → (l.map Prod.fst).Nodup →
    ∀ k, alookup l k = alookup l2 k := by
  intro l l2 h
  induction h with
  | nil => intro _ _; rfl
  | cons x h ih =>
    intro hn k
    cases x with
    | mk a b =>
      rw [List.map_cons, List.nodup_cons] at hn
      by_cases hk : a = k <;> simp [alookup, hk, ih hn.2 k]
  | swap x y l =>
    intro hn k
    cases x with
    | mk a b =>
      cases y with
      | mk c d =>
        have hne : c ≠ a := by
          simp only [List.map_cons, List.nodup_cons, List.mem_cons] at hn
          exact fun hca => hn.1 (Or.inl hca)
        by_cases h1 : c = k
        · by_cases h2 : a = k
          · exact absurd (h1.trans h2.symm) hne
          · simp [alookup, h1, h2]
        · by_cases h2 : a = k <;> simp [alookup, h1, h2]
  | trans h1 h2 ih1 ih2 =>
    intro hn k
    rw [ih1 hn k]
    exact ih2 ((h1.map Prod.fst).nodup_iff.mp hn) k

theorem updateGroup_ext {r r2 : RawMap} (h : ∀ k, alookup r k = alookup r2 k)
    (cg : ComputerGroup) : updateGroup r cg = updateGroup r2 cg := by
  unfold updateGroup
  rw [h cg.name, h (chars "MBDA")]

theorem mergeAll_ext {r r2 : RawMap} (h : ∀ k, alookup r k = alookup r2 k)
    (final : List ComputerGroup) : mergeAll r final = mergeAll r2 final := by
  unfold mergeAll
  induction final with
  | nil => rfl
  | cons cg t ih => rw [List.mapM_cons, List.mapM_cons, updateGroup_ext h, ih]

theorem foldl_addW32 (l : List Nat) (a : Nat) :
    l.foldl addW32 (a % W32) = (a + l.sum) % W32 := by
  induction l generalizing a with
  | nil => simp
  | cons x t ih =>
    simp only [List.foldl_cons, List.sum_cons]
    rw [show addW32 (a % W32) x = (a + x) % W32 by simp [addW32, Nat.mod_add_mod], ih (a + x)]
    ring_nf

theorem foldl_addW32_zero (l : List Nat) : l.foldl addW32 0 = l.sum % W32 := by
  have h := foldl_addW32 l 0
  rw [Nat.zero_mod] at h
  rw [h, Nat.zero_add]

/-- Claim C2 (amended): `display` appends exactly one row named "TOTAL" as the
last row, whose current and target are the sums of the other rows' current and
target values reduced modulo `2^32` (the `uint32_t` accumulators); the sums
are computed from the current and target fields only, never from a percent. -/
theorem displayTotal_spec (final : List ComputerGroup) :
    displayTotal final = final ++
      [{ name := chars "TOTAL",
         current := (final.map ComputerGroup.current).sum % W32,
         target := (final.map ComputerGroup.target).sum % W32 }] := by
  unfold displayTotal
  rw [show (final.foldl (fun a cg => addW32 a cg.current) 0) =
        ((final.map ComputerGroup.current).foldl addW32 0) by rw [List.foldl_map]
    , show (final.foldl (fun a cg => addW32 a cg.target) 0) =
        ((final.map ComputerGroup.target).foldl addW32 0) by rw [List.foldl_map]
    , foldl_addW32_zero, foldl_addW32_zero]

/-- Counterexample to C2 as stated: two rows of current `2^31` sum to `2^32`,
but the TOTAL row records 0 because the `uint32_t` accumulator wraps. -/
theorem displayTotal_claim_cex :
    displayTotal [{ name := chars "A", current := 2147483648, target := 0 },
                  { name := chars "B", current := 2147483648, target := 0 }] =
      [{ name := chars "A", current := 2147483648, target := 0 },
       { name := chars "B", current := 2147483648, target := 0 },
       { name := chars "TOTAL", current := 0, target := 0 }] ∧
    (2147483648 + 2147483648 : Nat) ≠ 0 := by
  constructor
  · decide
  · decide

/-- Claim C3 (amended): when `target > 0` divides `current * 100` exactly and
the quotient fits in `uint8_t`, `percent` returns exactly
`current * 100 / target` (e.g. 50/100 gives 50). -/
theorem percent_exact_div (g : ComputerGroup) (h : g.target ≠ 0)
    (hdvd : g.target ∣ g.current * 100) (hlt : g.current * 100 / g.target < 256) :
    percent g = some (g.current * 100 / g.target) := by
  have ht : ((g.target : ℚ)) ≠ 0 := Nat.cast_ne_zero.mpr h
  have h2 : (g.current * 100 / g.target) * g.target = g.current * 100 :=
    Nat.div_mul_cancel hdvd
  have key : (g.current : ℚ) / (g.target : ℚ) * 100 =
      ((g.current * 100 / g.target : Nat) : ℚ) := by
    rw [div_mul_eq_mul_div, div_eq_iff ht]
    exact_mod_cast h2.symm
  have hr : round ((g.current : ℚ) / (g.target : ℚ) * 100) =
      ((g.current * 100 / g.target : Nat) : ℤ) := by
    rw [key]
    exact round_natCast _
  unfold percent
  rw [if_pos h]
  simp only [hr]
  rw [if_pos ⟨Int.natCast_nonneg _, by exact_mod_cast hlt⟩, Int.toNat_natCast]

/-- Witness for C3 at current = 50, target = 100: percent is exactly 50. -/
theorem percent_exact_div_witness :
    percent { name := chars "X", current := 50, target := 100 } = some (50 * 100 / 100) :=
  percent_exact_div { name := chars "X", current := 50, target := 100 }
    (by decide) (by decide) (by decide)

/-- Counterexample to C3 as stated: 1 divides 3 * 100 exactly, with quotient
300, but `percent` of current = 3, target = 1 is not 300 (it is undefined,
since 300 does not fit the `uint8_t` return type). -/
theorem percent_exact_div_claim_cex :
    (1 : Nat) ∣ 3 * 100 ∧
    percent { name := chars "X", current := 3, target := 1 } ≠ some (3 * 100 / 1) := by
  constructor
  · decide
  · have hp : percent { name := chars "X", current := 3, target := 1 } = none := by
      norm_num [percent]
    rw [hp]
    simp

/-- Claim C8: when a group named "OS" has a count in the raw map and the key
"MBDA" is absent, the merge of `loadCurrent` dereferences the failed "MBDA"
lookup, which has no defined value: the error branch of the lookup is reached
(`updateGroup` is `none`), so MBDA's presence is a necessary precondition. -/
theorem os_merge_requires_mbda (raw : RawMap) (cg : ComputerGroup)
    (h1 : cg.name = chars "OS") (h2 : ∃ c, alookup raw (chars "OS") = some c)
    (h3 : alookup raw (chars "MBDA") = none) :
    updateGroup raw cg = none := by
  obtain ⟨c, hc⟩ := h2
  unfold updateGroup
  rw [h1, hc, h3]
  simp

/-- Witness for C8: a raw map with "OS" but no "MBDA". -/
theorem os_merge_requires_mbda_witness :
    updateGroup [(chars "OS", 5)] { name := chars "OS", current := 0, target := 10 } = none :=
  os_merge_requires_mbda [(chars "OS", 5)]
    { name := chars "OS", current := 0, target := 10 } rfl ⟨5, by decide⟩ (by decide)

/-- Claim C9: when the target or current file cannot be opened, the loader
prints the error message (the `true` flag) and returns normally with the data
untouched — empty target collection, unchanged raw map and groups — rather
than exiting or raising. -/
theorem missing_file_continues (fuel : Nat) (raw0 : RawMap) (final : List ComputerGroup) :
    loadTargetF none = some ([], true) ∧
    loadCurrentF fuel none raw0 final = .ok raw0 final true :=
  ⟨rfl, rfl⟩

/-- Claim C10: `emplace` into the raw map never overwrites: looking up any
name in the map built from the extracted records returns the count of the
first record with that name, and an existing binding survives any insertion. -/
theorem emplace_first_wins :
    (∀ recs k, alookup (buildRaw recs) k = alookup recs k) ∧
    (∀ (m : RawMap) (k : List Char) (w : Nat) (k2 : List Char) (v2 : Nat),
      alookup m k = some w → alookup (emplace m k2 v2) k = some w) := by
  refine ⟨buildRaw_alookup, ?_⟩
  intro m k w k2 v2 h
  rw [alookup_emplace, h]
  rfl

/-- Witness for C10: the duplicate name "A" keeps its first count, and an
existing binding survives a later emplace of the same key. -/
theorem emplace_first_wins_witness :
    alookup (buildRaw [(chars "A", 1), (chars "A", 2)]) (chars "A") =
      alookup [(chars "A", 1), (chars "A", 2)] (chars "A") ∧
    alookup (emplace [(chars "A", 1)] (chars "A") 2) (chars "A") = some 1 :=
  ⟨emplace_first_wins.1 [(chars "A", 1), (chars "A", 2)] (chars "A"),
   emplace_first_wins.2 [(chars "A", 1)] (chars "A") 1 (chars "A") 2 (by decide)⟩

/-- Claim C4 (amended): the merged per-group current counts — including the
merge of MBDA's count into the OS group — are the same for any ordering of
the extracted (name, count) records, provided no group name occurs twice
among them (with duplicate names, `emplace` keeps whichever record comes
first, so the order matters). -/
theorem merge_perm_invariant (recs recs2 : List (List Char × Nat))
    (final : List ComputerGroup) (hp : recs.Perm recs2)
    (hn : (recs.map Prod.fst).Nodup) :
    mergeAll (buildRaw recs) final = mergeAll (buildRaw recs2) final := by
  apply mergeAll_ext
  intro k
  rw [buildRaw_alookup, buildRaw_alookup]
  exact perm_nodup_alookup hp hn k

/-- Witness for C4 on a two-record permutation with distinct names. -/
theorem merge_perm_invariant_witness :
    mergeAll (buildRaw [(chars "A", 1), (chars "B", 2)])
        [{ name := chars "A", current := 0, target := 3 }] =
      mergeAll (buildRaw [(chars "B", 2), (chars "A", 1)])
        [{ name := chars "A", current := 0, target := 3 }] :=
  merge_perm_invariant [(chars "A", 1), (chars "B", 2)] [(chars "B", 2), (chars "A", 1)]
    [{ name := chars "A", current := 0, target := 3 }] (by decide) (by decide)

/-- Counterexample to C4 as stated: the records ("A",1),("A",2) and their
transposition are permutations of each other, yet the merged current value of
group "A" is 1 in one order and 2 in the other. -/
theorem merge_perm_claim_cex :
    List.Perm [(chars "A", 1), (chars "A", 2)] [(chars "A", 2), (chars "A", 1)] ∧
    mergeAll (buildRaw [(chars "A", 1), (chars "A", 2)])
        [{ name := chars "A", current := 0, target := 5 }] ≠
      mergeAll (buildRaw [(chars "A", 2), (chars "A", 1)])
        [{ name := chars "A", current := 0, target := 5 }] := by
  constructor
  · decide
  · decide

theorem scanBody_none {line : List Char} {st : ScanSt} (h : scanBody line st = none) :
    ∃ i n, stoi (substrC line i n) = none := by
  simp only [scanBody] at h
  split at h <;> split at h
  all_goals try exact absurd h (by simp)
  all_goals
    split at h
    · exact ⟨_, _, by assumption⟩
    · exact absurd h (by simp)

/-- Claim C5 (amended): scanning a record line fails or skips silently on
malformed or absent cell delimiters, but the conversion of a count cell's
text to an integer CAN raise an error: the only error the scanning loop ever
raises comes from `std::stoi` failing on the text of some cell. -/
theorem scan_err_only_stoi (line : List Char) :
    ∀ (fuel : Nat) (st : ScanSt), scanLoop line fuel st = .err →
      ∃ i n, stoi (substrC line i n) = none := by
  intro fuel
  induction fuel with
  | zero =>
    intro st h
    simp [scanLoop] at h
  | succ n ih =>
    intro st h
    rw [scanLoop] at h
    by_cases h0 : st.start = npos
    · rw [if_pos h0] at h
      simp at h
    · rw [if_neg h0] at h
      cases hb : scanBody line st with
      | none => exact scanBody_none hb
      | some st2 =>
        rw [hb] at h
        exact ih st2 h

/-- Witness for C5's amended claim: on the record line whose count cell reads
"N/A" the loop raises the error, so some cell's text fails `stoi`. -/
theorem scan_err_only_stoi_witness :
    ∃ i n, stoi (substrC (chars "<tr><td>A</td><td>N/A</td>") i n) = none :=
  scan_err_only_stoi (chars "<tr><td>A</td><td>N/A</td>") 5
    ⟨strFind (chars "<tr><td>A</td><td>N/A</td>") kStart 0, []⟩ (by decide)

/-- Counterexample to C5 as stated: extracting the pairs of the record line
"<tr><td>A</td><td>N/A</td>" raises an error (`std::stoi` throws
`std::invalid_argument` on the count cell "N/A"). -/
theorem scan_err_claim_cex :
    scanLoop (chars "<tr><td>A</td><td>N/A</td>") 5
      ⟨strFind (chars "<tr><td>A</td><td>N/A</td>") kStart 0, []⟩ = .err := by decide

theorem kDelim_eq : kDelim = [','] := rfl

theorem firstMatch_delim (name rest : List Char) (hn : ¬ (',' ∈ name)) :
    firstMatch kDelim (name ++ ',' :: rest) = some name.length := by
  induction name with
  | nil =>
    simp [firstMatch, kDelim_eq, List.isPrefixOf]
  | cons c t ih =>
    have hc : ¬ (',' == c) = true := by
      simp only [beq_iff_eq]
      intro hcc
      exact hn (by simp [hcc.symm])
    have ht : ¬ (',' ∈ t) := fun hmem => hn (by simp [hmem])
    simp only [List.cons_append, firstMatch, kDelim_eq, List.append_eq]
    rw [show ([','].isPrefixOf (c :: (t ++ ',' :: rest))) = false by
      simp [List.isPrefixOf, hc]]
    rw [show firstMatch [','] (t ++ ',' :: rest) = some t.length from
      kDelim_eq ▸ ih ht]
    simp

theorem strFind_delim (name rest : List Char) (hn : ¬ (',' ∈ name)) :
    strFind (name ++ ',' :: rest) kDelim 0 = name.length := by
  unfold strFind
  rw [List.drop_zero, firstMatch_delim name rest hn]
  simp

theorem isDigit_not_space {c : Char} (h : c.isDigit = true) : isSpaceC c = false := by
  by_contra hc
  rw [Bool.not_eq_false] at hc
  simp only [isSpaceC, Bool.or_eq_true, decide_eq_true_eq] at hc
  rcases hc with (((((h1 | h1) | h1) | h1) | h1) | h1) <;> subst h1 <;>
    exact absurd h (by decide)

theorem isDigit_head {c : Char} (h : c.isDigit = true) :
    c ≠ '-' ∧ c ≠ '+' := by
  constructor <;> intro h1 <;> subst h1 <;> exact absurd h (by decide)

theorem takeWhile_digits (l : List Char) (hd : ∀ c ∈ l, c.isDigit = true) :
    l.takeWhile Char.isDigit = l := by
  induction l with
  | nil => rfl
  | cons c t ih =>
    rw [List.takeWhile_cons, if_pos (hd c (by simp)), ih (fun x hx => hd x (by simp [hx]))]

theorem stoi_digits (ds : List Char) (h0 : ds ≠ []) (hd : ∀ c ∈ ds, c.isDigit = true)
    (hle : (digitsVal ds : Int) ≤ INT_MAX) :
    stoi ds = some ((digitsVal ds : Int)) := by
  obtain ⟨d, t, rfl⟩ : ∃ d t, ds = d :: t := by
    cases ds with
    | nil => exact absurd rfl h0
    | cons d t => exact ⟨d, t, rfl⟩
  have hdd : d.isDigit = true := hd d (by simp)
  have hsp : isSpaceC d = false := isDigit_not_space hdd
  have hsign := isDigit_head hdd
  have h1 : (d :: t).dropWhile isSpaceC = d :: t := by
    rw [List.dropWhile_cons, hsp]
    simp
  have hb1 : decide ((d :: t).head? = some '-') = false := by
    simp only [List.head?_cons, decide_eq_false_iff_not, Option.some.injEq]
    exact hsign.1
  have hb2 : decide ((d :: t).head? = some '+') = false := by
    simp only [List.head?_cons, decide_eq_false_iff_not, Option.some.injEq]
    exact hsign.2
  have hw : (d :: t).takeWhile Char.isDigit = d :: t := takeWhile_digits _ hd
  simp only [stoi, h1, hb1, hb2, Bool.or_self, Bool.false_eq_true, if_false,
    hw, List.isEmpty_cons, one_mul]
  rw [if_neg ?hbound]
  case hbound =>
    simp only [Bool.or_eq_true, decide_eq_true_eq, not_or, not_lt, one_mul]
    constructor
    · calc INT_MIN ≤ 0 := by norm_num [INT_MIN]
        _ ≤ (digitsVal (d :: t) : Int) := by positivity
    · exact hle

/-- Claim C6 (amended): for every target-file line "name,t" whose name
contains no delimiter and whose digits t denote an integer 0 ≤ t < 2^16,
`loadTarget` appends one group named name with stored target t.  (The claim
as stated fails beyond this range: at t = 70000 the value passes through a
`uint16_t` local and 4464 = 70000 mod 2^16 is stored instead.) -/
theorem loadTarget_line_spec (name ds : List Char) (hn : ¬ (',' ∈ name)) (h0 : ds ≠ [])
    (hd : ∀ c ∈ ds, c.isDigit = true) (hlt : digitsVal ds < 65536)
    (hlen : name.length + 1 < W64) :
    loadTargetLine (name ++ ',' :: ds) =
      some { name := name, current := 0, target := digitsVal ds } := by
  have hg : substrC (name ++ ',' :: ds) 0 name.length = name := by
    simp only [substrC, List.drop_zero]
    exact List.take_left name (',' :: ds)
  have ha : addW name.length 1 = name.length + 1 := Nat.mod_eq_of_lt hlen
  have hs : substrC (name ++ ',' :: ds) (name.length + 1) (name ++ ',' :: ds).length = ds := by
    have hdrop : (name ++ ',' :: ds).drop (name.length + 1) = ds := by
      rw [show name ++ ',' :: ds = (name ++ [',']) ++ ds by simp
        , show name.length + 1 = (name ++ [',']).length by simp]
      exact List.drop_left (name ++ [',']) ds
    rw [substrC, hdrop]
    exact List.take_of_length_le (by simp only [List.length_append, List.length_cons]; omega)
  have hstoi : stoi ds = some ((digitsVal ds : Int)) := by
    refine stoi_digits ds h0 hd ?_
    have h65 : (digitsVal ds : Int) < 65536 := by exact_mod_cast hlt
    norm_num [INT_MAX]
    omega
  have hmod : ((digitsVal ds : Int) % 65536) = (digitsVal ds : Int) :=
    Int.emod_eq_of_lt (by positivity) (by exact_mod_cast hlt)
  simp only [loadTargetLine, strFind_delim name ds hn, hg, ha, hs, hstoi, hmod,
    Int.toNat_natCast]

/-- Witness for C6 on the line "A,123". -/
theorem loadTarget_line_spec_witness :
    loadTargetLine (chars "A" ++ ',' :: chars "123") =
      some { name := chars "A", current := 0, target := digitsVal (chars "123") } :=
  loadTarget_line_spec (chars "A") (chars "123")
    (by decide) (by decide) (by decide) (by decide) (by decide)

/-- Counterexample to C6 as stated: the line "A,70000" (t = 70000, a decimal
integer ≥ 0) stores target 4464 = 70000 mod 2^16, not 70000. -/
theorem loadTarget_line_claim_cex :
    loadTargetLine (chars "A,70000") =
      some { name := chars "A", current := 0, target := 4464 } ∧ (4464 : Nat) ≠ 70000 := by
  constructor
  · decide
  · decide

theorem scanLoop_hangLine_fix (fuel : Nat) :
    scanLoop hangLine fuel ⟨4, [(chars "A", 0)]⟩ = .spin := by
  induction fuel with
  | zero => rfl
  | succ n ih =>
    rw [scanLoop]
    rw [if_neg (by decide)]
    rw [show scanBody hangLine ⟨4, [(chars "A", 0)]⟩ = some ⟨4, [(chars "A", 0)]⟩ by decide]
    exact ih

/-- Claim C7 is false of the code: on the record line "<tr><td>A</td>" (an
odd, dangling cell structure) the cell-scanning loop never terminates — after
the failed count-cell search, `start` is recomputed from `npos + 4`, which
wraps to 3 and re-finds the same "<td>", repeating the state forever — so the
loop is not total: no amount of fuel finishes it. -/
theorem scanLoop_diverges :
    kRecord.isPrefixOf hangLine = true ∧
    ∀ fuel : Nat,
      scanLoop hangLine fuel ⟨strFind hangLine kStart 0, []⟩ = .spin := by
  refine ⟨by decide, ?_⟩
  intro fuel
  cases fuel with
  | zero => rfl
  | succ n =>
    rw [scanLoop]
    rw [if_neg (by decide)]
    rw [show scanBody hangLine ⟨strFind hangLine kStart 0, []⟩ =
          some ⟨4, [(chars "A", 0)]⟩ by decide]
    exact scanLoop_hangLine_fix n

end BigFix
